import Mathlib

/-!
Shallow embedding of the simulation core of the shmup repository
(src/App.tsx).  TS numbers are modelled as exact rationals, the idealised
real-number semantics of the arithmetic in the source.  External sources of
values (Math.cos / Math.sin / Math.atan2, Math.random, uuidv4) enter the
per-tick pipeline only as data; they are modelled as oracle fields of
`Input` (unit direction vectors, random rolls) and a fresh-id counter
threaded through the tick.  A comparison `Math.sqrt d2 <= b` is embedded by
the equivalent rational test `0 <= b AND d2 <= b ^ 2` (equivalent over the
reals because sqrt is nonnegative and monotone), so that every predicate
stays decidable and executable.
-/

namespace Shmup

/-- `type CurrentMax = { current, max }` from App.tsx. -/
@[ext]
structure CurrentMax where
  current : ℚ
  max : ℚ
deriving DecidableEq

/-- The `attack` block of `Stats` (App.tsx lines 12-18). -/
@[ext]
structure AttackStats where
  damage : ℚ
  cooldown : CurrentMax
  range : ℚ
  radius : ℚ
  projectileSpeed : ℚ
deriving DecidableEq

/-- `type Stats` (App.tsx lines 7-19). -/
@[ext]
structure Stats where
  level : ℤ
  health : CurrentMax
  speed : ℚ
  radius : ℚ
  attack : AttackStats
deriving DecidableEq

inductive Face where
  | left
  | right
deriving DecidableEq

/-- `type Entity` (App.tsx lines 35-42); uuids are modelled as naturals
drawn from a fresh counter (uuidv4 produces fresh distinct ids). -/
@[ext]
structure Entity where
  uuid : ℕ
  name : String
  stats : Stats
  x : ℚ
  y : ℚ
  face : Face
deriving DecidableEq

/-- `type Projectile` (App.tsx lines 55-67).  The travel `angle` is only
ever consumed through `Math.cos angle` and `Math.sin angle`, so the
embedding stores that pair directly as `dirX`, `dirY`. -/
@[ext]
structure Projectile where
  uuid : ℕ
  caster : ℕ
  startX : ℚ
  startY : ℚ
  x : ℚ
  y : ℚ
  damage : ℚ
  dirX : ℚ
  dirY : ℚ
  speed : ℚ
  radius : ℚ
  range : ℚ
  isPiercing : Bool
  entityHitCooldown : List (ℕ × ℚ)
deriving DecidableEq

inductive GIType where
  | xp
  | health
  | item
  | coin
deriving DecidableEq

/-- `type GroundItem` (App.tsx lines 85-90); the simulation only ever
creates numeric values, so `value` is a rational. -/
@[ext]
structure GroundItem where
  uuid : ℕ
  type : GIType
  value : ℚ
  x : ℚ
  y : ℚ
deriving DecidableEq

inductive Rarity where
  | common
  | rare
  | unique
deriving DecidableEq

/-- `type Upgrade` (App.tsx lines 101-108); `values` is a string-keyed
record, embedded as an association list. -/
structure Upgrade where
  id : String
  name : String
  description : String
  rarity : Rarity
  maxLevel : Option ℕ := none
  values : List (String × ℚ) := []
deriving DecidableEq

/-- `Record<string, number>` of accumulated upgrade levels. -/
abbrev UpgradeState := List (String × ℕ)

@[reducible] def idAttackRadius : String := "attackRadius"
@[reducible] def idMovementSpeed : String := "movementSpeed"
@[reducible] def idHealth : String := "health"
@[reducible] def idAttackDamage : String := "attackDamage"
@[reducible] def idAttackSpeed : String := "attackSpeed"
@[reducible] def idPiercing : String := "piercing"
@[reducible] def idLifeSteal : String := "lifeSteal"

@[reducible] def keyRadius : String := "radius"
@[reducible] def keySpeed : String := "speed"
@[reducible] def keyHealth : String := "health"
@[reducible] def keyDamage : String := "damage"

/-- The static catalog `UPGRADES` (App.tsx lines 115-177). -/
def UPGRADES : List Upgrade := [
  { id := idAttackRadius, name := "Attack Radius",
    description := "Increase the attack radius by {radius}",
    rarity := Rarity.common, values := [(keyRadius, 8)] },
  { id := idMovementSpeed, name := "Movement Speed",
    description := "Increase the movement speed by {speed}",
    rarity := Rarity.common, values := [(keySpeed, 25)] },
  { id := idHealth, name := "Health",
    description := "Increase the health by {health}",
    rarity := Rarity.common, values := [(keyHealth, 10)] },
  { id := idAttackDamage, name := "Attack Damage",
    description := "Increase the attack damage by {damage}",
    rarity := Rarity.common, values := [(keyDamage, 1)] },
  { id := idAttackSpeed, name := "Attack Speed",
    description := "Decrease the attack cooldown by {speed}",
    rarity := Rarity.common, maxLevel := some 20, values := [(keySpeed, 5)] },
  { id := idPiercing, name := "Piercing",
    description := "Projectiles pierce through enemies",
    rarity := Rarity.unique },
  { id := idLifeSteal, name := "Life Steal",
    description := "Heals {health} health per attack",
    rarity := Rarity.rare, values := [(keyHealth, 1)] }]

/-- `getUpgradeById` (App.tsx line 197). -/
def getUpgradeById (id : String) : Option Upgrade :=
  UPGRADES.find? (fun u => u.id == id)

/-- First-match lookup in a JS-object association list
(`record[key]`, `undefined` becomes `none`). -/
def lookupA {α β : Type} [DecidableEq α] (k : α) : List (α × β) → Option β
  | [] => none
  | e :: rest => if e.1 = k then some e.2 else lookupA k rest

/-- JS object update `record[key] = v` / spread-override: replaces the
existing binding in place or appends a new one. -/
def setA {α β : Type} [DecidableEq α] (k : α) (v : β) : List (α × β) → List (α × β)
  | [] => [(k, v)]
  | e :: rest => if e.1 = k then (k, v) :: rest else e :: setA k v rest

/-- Accumulated level of an upgrade id (`upgrades[id]`, `undefined` read
as 0 by the arithmetic and truthiness tests that consume it). -/
def levelOf (ups : UpgradeState) (id : String) : ℕ :=
  (lookupA id ups).getD 0

/-- `hasUpgrade` (App.tsx line 287): `upgrades[id] > 0`. -/
def hasUpgrade (ups : UpgradeState) (id : String) : Bool :=
  decide (0 < levelOf ups id)

/-- `upgrade.values[key]` for the keys actually dereferenced by the
switch in `playerWithUpgrades` (all present in the catalog). -/
def valueOf (u : Upgrade) (key : String) : ℚ :=
  (lookupA key u.values).getD 0

/-- One iteration of the `for (const [upgradeId, level] of
Object.entries(upgrades))` loop of `playerWithUpgrades`
(App.tsx lines 236-259), including the switch on the upgrade id.
Unknown ids are skipped (`if (!upgrade) continue`). -/
def applyUpgradeEntry (p : Entity) (entry : String × ℕ) : Entity :=
  match getUpgradeById entry.1 with
  | none => p
  | some u =>
    if entry.1 = idAttackRadius then
      { p with stats.attack.radius := p.stats.attack.radius + valueOf u keyRadius * (entry.2 : ℚ) }
    else if entry.1 = idMovementSpeed then
      { p with stats.speed := p.stats.speed + valueOf u keySpeed * (entry.2 : ℚ) / 100 }
    else if entry.1 = idHealth then
      { p with stats.health.max := p.stats.health.max + valueOf u keyHealth * (entry.2 : ℚ) }
    else if entry.1 = idAttackDamage then
      { p with stats.attack.damage := p.stats.attack.damage + valueOf u keyDamage * (entry.2 : ℚ) }
    else if entry.1 = idAttackSpeed then
      { p with stats.attack.cooldown.max := p.stats.attack.cooldown.max - valueOf u keySpeed * (entry.2 : ℚ) }
    else p

/-- `playerWithUpgrades` (App.tsx lines 233-262): clone the player and
fold every accumulated upgrade entry over it.  (The React memo recomputes
this whenever `upgrades` changes; every base field it reads is constant
over the run, so recomputing it per tick is observationally identical.) -/
def playerWithUpgrades (p : Entity) (ups : UpgradeState) : Entity :=
  ups.foldl applyUpgradeEntry p

/-- `DEFAULT_STATS` (App.tsx lines 21-33). -/
def DEFAULT_STATS : Stats :=
  { level := 1, health := { current := 1, max := 1 }, speed := 1/4, radius := 48,
    attack := { damage := 1, cooldown := { current := 0, max := 100 },
                range := 30, radius := 10, projectileSpeed := 3 } }

@[reducible] def namePlayer : String := "player"
@[reducible] def nameSkeleton : String := "skeleton"
@[reducible] def nameGoblin : String := "goblin"
@[reducible] def nameEye : String := "eye"
@[reducible] def nameMushroom : String := "mushroom"

/-- The `entity` constructor helper (App.tsx lines 44-53), with the fresh
uuid made explicit. -/
def entityDef (uuid : ℕ) (name : String) (x y : ℚ) (stats : Stats) : Entity :=
  { uuid := uuid, name := name, stats := stats, x := x, y := y, face := Face.right }

/-- The `projectile` constructor helper (App.tsx lines 69-83). -/
def projectileDef (uuid caster : ℕ) (x y damage dirX dirY speed radius range : ℚ)
    (isPiercing : Bool) : Projectile :=
  { uuid := uuid, caster := caster, startX := x, startY := y, x := x, y := y,
    damage := damage, dirX := dirX, dirY := dirY, speed := speed, radius := radius,
    range := range, isPiercing := isPiercing, entityHitCooldown := [] }

/-- The `groundItem` constructor helper (App.tsx lines 92-99). -/
def groundItemDef (uuid : ℕ) (type : GIType) (value x y : ℚ) : GroundItem :=
  { uuid := uuid, type := type, value := value, x := x, y := y }

/-- The player's initial state (App.tsx lines 207-219), uuid 0. -/
def initialPlayer : Entity :=
  { uuid := 0, name := namePlayer,
    stats := { level := 1, health := { current := 10, max := 10 }, speed := 1, radius := 48,
               attack := { damage := 1, cooldown := { current := 0, max := 105 },
                           range := 200, radius := 16, projectileSpeed := 2 } },
    x := 0, y := 0, face := Face.right }

/-- Squared Euclidean distance; the source computes
`Math.sqrt (Math.pow (x1-x2) 2 + Math.pow (y1-y2) 2)` and only ever
compares the result. -/
def dist2 (x1 y1 x2 y2 : ℚ) : ℚ := (x1 - x2) * (x1 - x2) + (y1 - y2) * (y1 - y2)

/-- `Math.sqrt d2 <= b`, expressed over rationals. -/
def sqrtLe (d2 b : ℚ) : Bool := decide (0 ≤ b ∧ d2 ≤ b * b)

/-- `Math.sqrt d2 >= b`, expressed over rationals. -/
def sqrtGe (d2 b : ℚ) : Bool := decide (b ≤ 0 ∨ b * b ≤ d2)

/-- `Math.sqrt d2 > b`, expressed over rationals. -/
def sqrtGt (d2 b : ℚ) : Bool := decide (b < 0 ∨ b * b < d2)

/-- The per-tick external data consumed by one run of the tick effect:
the WASD key snapshot, the pointer direction (cos / sin of `playerAngle`),
the pointer side for facing, the `Math.atan2`-derived unit direction
oracle (`dirTo dy dx` stands for `(cos (atan2 dy dx), sin (atan2 dy dx))`),
the per-death drop rolls (`true` means the 95% xp branch), and the spawn
randomness. -/
structure Input where
  w : Bool
  a : Bool
  s : Bool
  d : Bool
  cosA : ℚ
  sinA : ℚ
  mouseRight : Bool
  dirTo : ℚ → ℚ → ℚ × ℚ
  dropRolls : ℕ → Bool
  spawnSin : ℚ
  spawnCos : ℚ
  spawnLevelDelta : ℤ

/-- The world snapshot advanced by the tick effect: exactly the React
state the effect reads and writes (App.tsx lines 202-270), with the fresh
uuid counter made explicit. -/
structure World where
  player : Entity
  enemies : List Entity
  projectiles : List Projectile
  groundItems : List GroundItem
  upgrades : UpgradeState
  xp : ℚ
  tick : ℕ
  upgradeSelection : List String
  nextId : ℕ
deriving DecidableEq

/-- WASD movement (App.tsx lines 295-306): each held key moves the player
by the effective speed along its axis, independently (the four sequential
conditional mutations of the source sum to these two coordinate
updates). -/
def movePlayer (i : Input) (speed : ℚ) (p : Entity) : Entity :=
  { p with
    x := p.x + (if i.a then -speed else 0) + (if i.d then speed else 0)
    y := p.y + (if i.w then -speed else 0) + (if i.s then speed else 0) }

structure AttackRes where
  player : Entity
  shot : Option Projectile
  nextId : ℕ

/-- Player auto attack (App.tsx lines 308-326): at cooldown 0 spawn a
projectile from the effective stats and reset the cooldown to the
effective max, otherwise decrement the cooldown. -/
def playerAttack (i : Input) (eff : Stats) (piercing : Bool) (p : Entity) (nid : ℕ) : AttackRes :=
  if p.stats.attack.cooldown.current = 0 then
    { player := { p with stats.attack.cooldown.current := eff.attack.cooldown.max },
      shot := some (projectileDef nid p.uuid (p.x + eff.radius * i.cosA)
        (p.y + eff.radius * i.sinA) eff.attack.damage i.cosA i.sinA
        eff.attack.projectileSpeed eff.attack.radius eff.attack.range piercing),
      nextId := nid + 1 }
  else
    { player := { p with stats.attack.cooldown.current := p.stats.attack.cooldown.current - 1 },
      shot := none, nextId := nid }

/-- Decrement every positive per-target hit-cooldown entry
(App.tsx lines 336-340). -/
def decayHitCooldowns (m : List (ℕ × ℚ)) : List (ℕ × ℚ) :=
  m.map (fun ec => if 0 < ec.2 then (ec.1, ec.2 - 1) else ec)

/-- The piercing re-hit gate (App.tsx lines 358-361): damage is allowed
iff the enemy's entry is 0 or unset, and then the entry is set to 300. -/
def piercingResolve (m : List (ℕ × ℚ)) (u : ℕ) : Bool × List (ℕ × ℚ) :=
  if lookupA u m = some 0 ∨ lookupA u m = none then (true, setA u 300 m) else (false, m)

/-- `processHit` (App.tsx lines 349-354): subtract the projectile damage
from the enemy and heal the player by 1 if life steal is owned. -/
def processHit (hasLS : Bool) (dmg : ℚ) (e : Entity) (ph : ℚ) : Entity × ℚ :=
  ({ e with stats.health.current := e.stats.health.current - dmg },
   if hasLS then ph + 1 else ph)

structure DmgRes where
  enemies : List Entity
  ph : ℚ
  pr : Projectile
  consumed : Bool

/-- The enemy loop of a player-cast projectile (App.tsx lines 344-371):
walk the enemies in order; on overlap a piercing projectile applies the
re-hit gate and keeps going, a non-piercing projectile damages the first
overlapping enemy, is consumed and breaks out of the loop. -/
def damageEnemies (hasLS : Bool) (pr : Projectile) (es : List Entity) (ph : ℚ) : DmgRes :=
  match es with
  | [] => { enemies := [], ph := ph, pr := pr, consumed := false }
  | e :: rest =>
    if sqrtLe (dist2 pr.x pr.y e.x e.y) (e.stats.radius + pr.radius) then
      if pr.isPiercing then
        let gate := piercingResolve pr.entityHitCooldown e.uuid
        if gate.1 then
          let hit := processHit hasLS pr.damage e ph
          let pr' := { pr with entityHitCooldown := gate.2 }
          let r := damageEnemies hasLS pr' rest hit.2
          { r with enemies := hit.1 :: r.enemies }
        else
          let r := damageEnemies hasLS pr rest ph
          { r with enemies := e :: r.enemies }
      else
        let hit := processHit hasLS pr.damage e ph
        { enemies := hit.1 :: rest, ph := hit.2, pr := pr, consumed := true }
    else
      let r := damageEnemies hasLS pr rest ph
      { r with enemies := e :: r.enemies }

structure ProjCtx where
  playerUuid : ℕ
  effRadius : ℚ
  hasLifeSteal : Bool

structure ProjRes where
  keep : Option Projectile
  enemies : List Entity
  ph : ℚ

/-- Position advance and hit-cooldown decay at the top of the projectile
loop body (App.tsx lines 332-340). -/
def advanceProjectile (pr : Projectile) : Projectile :=
  { pr with
    x := pr.x + pr.dirX * pr.speed
    y := pr.y + pr.dirY * pr.speed
    entityHitCooldown := decayHitCooldowns pr.entityHitCooldown }

/-- The rest of the projectile loop body after the advance
(App.tsx lines 342-391): player-cast projectiles resolve against the
enemies (and are removed when consumed), enemy-cast projectiles deal a
fixed 1 damage to the player on overlap and are removed; in either case a
surviving projectile is removed once its travelled distance reaches its
range. -/
def stepProjectileCore (ctx : ProjCtx) (px py : ℚ) (pr : Projectile)
    (es : List Entity) (ph : ℚ) : ProjRes :=
  if pr.caster = ctx.playerUuid then
    let r := damageEnemies ctx.hasLifeSteal pr es ph
    if r.consumed then { keep := none, enemies := r.enemies, ph := r.ph }
    else if sqrtGe (dist2 r.pr.x r.pr.y r.pr.startX r.pr.startY) r.pr.range then
      { keep := none, enemies := r.enemies, ph := r.ph }
    else { keep := some r.pr, enemies := r.enemies, ph := r.ph }
  else
    if sqrtLe (dist2 pr.x pr.y px py) (ctx.effRadius + pr.radius) then
      { keep := none, enemies := es, ph := ph - 1 }
    else if sqrtGe (dist2 pr.x pr.y pr.startX pr.startY) pr.range then
      { keep := none, enemies := es, ph := ph }
    else { keep := some pr, enemies := es, ph := ph }

/-- One full iteration of the projectile loop (App.tsx lines 329-392). -/
def stepProjectile (ctx : ProjCtx) (px py : ℚ) (pr : Projectile)
    (es : List Entity) (ph : ℚ) : ProjRes :=
  stepProjectileCore ctx px py (advanceProjectile pr) es ph

structure ProjsRes where
  projectiles : List Projectile
  enemies : List Entity
  ph : ℚ

/-- The projectile loop (App.tsx lines 329-392), with the
splice-and-decrement removal of the source expressed as keeping only the
surviving projectiles. -/
def processProjectiles (ctx : ProjCtx) (px py : ℚ) :
    List Projectile → List Entity → ℚ → ProjsRes
  | [], es, ph => { projectiles := [], enemies := es, ph := ph }
  | pr :: rest, es, ph =>
    let r := stepProjectile ctx px py pr es ph
    let rr := processProjectiles ctx px py rest r.enemies r.ph
    match r.keep with
    | none => rr
    | some pr' => { rr with projectiles := pr' :: rr.projectiles }

structure EnemiesRes where
  enemies : List Entity
  drops : List GroundItem
  shots : List Projectile
  nextId : ℕ

/-- The enemy loop (App.tsx lines 395-442): dead enemies are removed and
drop one ground item (95% xp worth `4 + level`, else health worth
`level`); live enemies chase the player while out of attack range and
otherwise run their attack cooldown, shooting a projectile at 0.  `k`
indexes the per-death drop rolls consumed this tick. -/
def processEnemies (i : Input) (ctx : ProjCtx) (px py : ℚ) :
    List Entity → ℕ → ℕ → EnemiesRes
  | [], _, nid => { enemies := [], drops := [], shots := [], nextId := nid }
  | e :: rest, k, nid =>
    if e.stats.health.current ≤ 0 then
      let drop := if i.dropRolls k then
          groundItemDef nid GIType.xp (4 + (e.stats.level : ℚ)) e.x e.y
        else groundItemDef nid GIType.health (e.stats.level : ℚ) e.x e.y
      let r := processEnemies i ctx px py rest (k + 1) (nid + 1)
      { r with drops := drop :: r.drops }
    else
      let dvec := i.dirTo (py - e.y) (px - e.x)
      let d2 := dist2 px py e.x e.y
      if sqrtGt d2 (e.stats.attack.range + ctx.effRadius + e.stats.radius) then
        let deltaX := dvec.1 * e.stats.speed
        let e' := { e with
          x := e.x + deltaX
          y := e.y + dvec.2 * e.stats.speed
          face := if 0 < deltaX then Face.right else Face.left }
        let r := processEnemies i ctx px py rest k nid
        { r with enemies := e' :: r.enemies }
      else
        if e.stats.attack.cooldown.current = 0 then
          let shot := projectileDef nid e.uuid (e.x + e.stats.radius * dvec.1)
              (e.y + e.stats.radius * dvec.2) e.stats.attack.damage dvec.1 dvec.2
              e.stats.attack.projectileSpeed e.stats.attack.radius e.stats.attack.range false
          let e' := { e with stats.attack.cooldown.current := e.stats.attack.cooldown.max }
          let r := processEnemies i ctx px py rest k (nid + 1)
          { r with enemies := e' :: r.enemies, shots := shot :: r.shots }
        else
          let e' := { e with stats.attack.cooldown.current := e.stats.attack.cooldown.current - 1 }
          let r := processEnemies i ctx px py rest k nid
          { r with enemies := e' :: r.enemies }

structure ItemsRes where
  items : List GroundItem
  ph : ℚ
  xp : ℚ

/-- The ground-item loop (App.tsx lines 445-469): xp gems inside the
`150 - radius` attraction band are magnetised toward the player and
collected (into accumulated xp) once inside the player radius; health
fruits heal `2 * value` on direct overlap; other kinds are inert. -/
def processGroundItems (i : Input) (px py effR : ℚ) :
    List GroundItem → ℚ → ℚ → ItemsRes
  | [], ph, xp => { items := [], ph := ph, xp := xp }
  | g :: rest, ph, xp =>
    let d2 := dist2 px py g.x g.y
    match g.type with
    | GIType.xp =>
      if sqrtLe d2 (150 - effR) then
        let dvec := i.dirTo (py - g.y) (px - g.x)
        let g' := { g with x := g.x + dvec.1 * 2, y := g.y + dvec.2 * 2 }
        if sqrtLe d2 effR then
          processGroundItems i px py effR rest ph (xp + g.value)
        else
          let r := processGroundItems i px py effR rest ph xp
          { r with items := g' :: r.items }
      else
        let r := processGroundItems i px py effR rest ph xp
        { r with items := g :: r.items }
    | GIType.health =>
      if sqrtLe d2 effR then
        processGroundItems i px py effR rest (ph + g.value * 2) xp
      else
        let r := processGroundItems i px py effR rest ph xp
        { r with items := g :: r.items }
    | GIType.item =>
      let r := processGroundItems i px py effR rest ph xp
      { r with items := g :: r.items }
    | GIType.coin =>
      let r := processGroundItems i px py effR rest ph xp
      { r with items := g :: r.items }

def enemyNames : List String := [nameSkeleton, nameGoblin, nameEye, nameMushroom]

/-- The enemy created by the spawn check (App.tsx lines 471-499):
level `max 1 (player level + rand(-1,1))`, type from the 4-entry rotation
indexed by `floor (level / 4) % 4`, stats scaled by `floor (level / 4)`
and `floor (level / 16)`, placed 600 units from the player at a random
angle. -/
def spawnEnemy (i : Input) (plevel : ℤ) (px py : ℚ) (nid : ℕ) : Entity :=
  let level : ℤ := max 1 (plevel + i.spawnLevelDelta)
  let l4 : ℕ := level.toNat / 4
  let l16 : ℕ := level.toNat / 16
  { uuid := nid,
    name := enemyNames.getD (l4 % enemyNames.length) nameSkeleton,
    stats := {
      level := level,
      health := { current := 1 + (l4 : ℚ), max := 1 + (l4 : ℚ) },
      speed := 1/4 + 2/100 * (level : ℚ),
      radius := 48 + (l16 : ℚ) * 16,
      attack := {
        damage := 1 + (l4 : ℚ),
        cooldown := { current := 0, max := 100 },
        range := 30 + (l4 : ℚ) * 4,
        radius := 10 + (l4 : ℚ) * 2,
        projectileSpeed := 3 } },
    x := px + i.spawnSin * 600,
    y := py + i.spawnCos * 600,
    face := Face.right }

/-- The effective player stats derived at the top of each tick from the
current UpgradeState (App.tsx lines 233, 296-322). -/
def effStats (w : World) : Stats := (playerWithUpgrades w.player w.upgrades).stats

/-- The per-tick projectile context: friendly caster id, effective player
radius, life-steal ownership. -/
def tickCtx (w : World) : ProjCtx :=
  { playerUuid := w.player.uuid, effRadius := (effStats w).radius,
    hasLifeSteal := hasUpgrade w.upgrades idLifeSteal }

/-- Stage 1: WASD movement (App.tsx lines 295-306). -/
def tickP1 (w : World) (i : Input) : Entity := movePlayer i (effStats w).speed w.player

/-- Stage 2: player auto attack (App.tsx lines 308-326). -/
def tickAtk (w : World) (i : Input) : AttackRes :=
  playerAttack i (effStats w) (hasUpgrade w.upgrades idPiercing) (tickP1 w i) w.nextId

/-- The projectile list entering the projectile loop: the existing ones
plus the projectile pushed by this tick's attack, if any. -/
def tickProjs1 (w : World) (i : Input) : List Projectile :=
  w.projectiles ++ (tickAtk w i).shot.toList

/-- Stage 3: the projectile loop (App.tsx lines 329-392). -/
def tickPres (w : World) (i : Input) : ProjsRes :=
  processProjectiles (tickCtx w) (tickAtk w i).player.x (tickAtk w i).player.y
    (tickProjs1 w i) w.enemies (tickAtk w i).player.stats.health.current

/-- Stage 4: the enemy loop (App.tsx lines 395-442). -/
def tickEres (w : World) (i : Input) : EnemiesRes :=
  processEnemies i (tickCtx w) (tickAtk w i).player.x (tickAtk w i).player.y
    (tickPres w i).enemies 0 (tickAtk w i).nextId

/-- Stage 5: the ground-item loop (App.tsx lines 445-469), run over the
existing items plus this tick's death drops. -/
def tickGres (w : World) (i : Input) : ItemsRes :=
  processGroundItems i (tickAtk w i).player.x (tickAtk w i).player.y
    (effStats w).radius (w.groundItems ++ (tickEres w i).drops) (tickPres w i).ph w.xp

/-- Stage 6: the spawn check (App.tsx lines 471-499): on ticks whose
counter is divisible by 100, append one freshly spawned enemy. -/
def tickSpawned (w : World) (i : Input) : List Entity × ℕ :=
  if w.tick % 100 = 0 then
    ((tickEres w i).enemies ++
        [spawnEnemy i w.player.stats.level (tickAtk w i).player.x (tickAtk w i).player.y
          (tickEres w i).nextId],
     (tickEres w i).nextId + 1)
  else ((tickEres w i).enemies, (tickEres w i).nextId)

/-- Stages 7-8: clamp the player's health to the effective max
(App.tsx lines 501-502) and set the facing from the pointer side
(App.tsx lines 510-512). -/
def tickPlayerOut (w : World) (i : Input) : Entity :=
  let p3 := { (tickAtk w i).player with
    stats.health.current := min (tickGres w i).ph (effStats w).health.max }
  { p3 with face := if i.mouseRight then Face.right else Face.left }

/-- The unguarded tick pipeline (App.tsx lines 287-512), assembled from
the stages above in source order. -/
def tickRun (w : World) (i : Input) : World :=
  { w with
    player := tickPlayerOut w i
    enemies := (tickSpawned w i).1
    projectiles := (tickPres w i).projectiles ++ (tickEres w i).shots
    groundItems := (tickGres w i).items
    xp := (tickGres w i).xp
    nextId := (tickSpawned w i).2 }

/-- One run of the tick effect (App.tsx lines 284-513): when an upgrade
selection is pending (`if (upgradeSelection.length) return`) the whole
pipeline is skipped and no state is written; otherwise the pipeline
runs. -/
def tickEffect (w : World) (i : Input) : World :=
  match w.upgradeSelection with
  | [] => tickRun w i
  | _ :: _ => w

/-- One timer firing: the interval increments the tick counter and the
tick effect then runs on the new value (App.tsx lines 528-530, 284). -/
def stepWorld (w : World) (i : Input) : World :=
  tickEffect { w with tick := w.tick + 1 } i

/-- Iterated simulation under a stream of per-tick inputs. -/
def iterWorlds (w : World) (ι : ℕ → Input) : ℕ → World
  | 0 => w
  | n + 1 => stepWorld (iterWorlds w ι n) (ι n)

/-- The ten enemies created by the mount effect (App.tsx lines 515-526),
each a default `skeleton` placed 600 units from the player at a random
angle (the oracle stream supplies the `(sin, cos)` pairs). -/
def initialEnemies (angles : ℕ → ℚ × ℚ) (px py : ℚ) (startId : ℕ) : List Entity :=
  (List.range 10).map (fun k =>
    entityDef (startId + k) nameSkeleton (px + (angles k).1 * 600)
      (py + (angles k).2 * 600) DEFAULT_STATS)

/-- The availability filter of the level-up draw (App.tsx lines 715-719):
unique entries need to be unowned and pass a fresh 10% roll, rare entries
pass a fresh 50% roll, common entries are eligible when unowned, uncapped
or below their cap.  The random gates are oracle booleans per entry id. -/
def availableUpgrades (ups : UpgradeState) (uniqueGate rareGate : String → Bool) :
    List Upgrade :=
  UPGRADES.filter (fun u =>
    match u.rarity with
    | Rarity.unique => decide (levelOf ups u.id = 0) && uniqueGate u.id
    | Rarity.rare => rareGate u.id
    | Rarity.common =>
      decide (levelOf ups u.id = 0) || u.maxLevel.isNone
        || decide (levelOf ups u.id < u.maxLevel.getD 0))

inductive DrawOutcome where
  | ok (ids : List String)
  | crash
deriving DecidableEq

/-- The draw loop of `getRandomUpgrades` (App.tsx lines 721-726), indexed
by explicit `fuel` (number of loop iterations still permitted): picks a
random eligible entry each round (`rnd n` models the nth
`Math.floor (Math.random() * length)`), appends unseen ids, and returns
once `amount` ids are collected.  `none` means the loop is still running
after `fuel` rounds; `crash` models the TypeError thrown by
`availableUpgrades[...]` being `undefined` on an empty eligible set. -/
def drawLoop (amount : ℕ) (avail : List Upgrade) (rnd : ℕ → ℕ) (acc : List String)
    (k : ℕ) : ℕ → Option DrawOutcome
  | 0 => none
  | fuel + 1 =>
    if amount ≤ acc.length then some (DrawOutcome.ok acc)
    else
      match avail with
      | [] => some DrawOutcome.crash
      | a :: l =>
        let u := (a :: l).getD (rnd k % (a :: l).length) a
        if u.id ∈ acc then drawLoop amount (a :: l) rnd acc (k + 1) fuel
        else drawLoop amount (a :: l) rnd (acc ++ [u.id]) (k + 1) fuel

/-- The draw loop terminates for some fuel bound on some outcome. -/
def drawTerminates (amount : ℕ) (avail : List Upgrade) : Prop :=
  ∃ rnd fuel, (drawLoop amount avail rnd [] 0 fuel).isSome

/-- `selectUpgrade` (App.tsx lines 735-741): increment the chosen id's
accumulated level (`(upgrades[id] || 0) + 1`) and clear the selection
list.  The pending selection list is taken as an argument to make its
(non-)use explicit. -/
def selectUpgrade (id : String) (ups : UpgradeState) (_sel : List String) :
    UpgradeState × List String :=
  (setA id (levelOf ups id + 1) ups, [])

/-- Per-tick evolution of one enemy's re-hit cooldown entry on a piercing
projectile that stays on top of that enemy: the decay of
App.tsx lines 336-340 followed, when the two overlap this tick, by the
gate of lines 358-361. -/
def hitCooldownTick (m : List (ℕ × ℚ)) (u : ℕ) (overlap : Bool) : Bool × List (ℕ × ℚ) :=
  let m1 := decayHitCooldowns m
  if overlap then piercingResolve m1 u else (false, m1)

/-- Hit flags of `n` consecutive ticks in which the piercing projectile
overlaps enemy `u` every tick. -/
def runOverlapTicks (m : List (ℕ × ℚ)) (u : ℕ) : ℕ → List Bool
  | 0 => []
  | n + 1 =>
    let r := hitCooldownTick m u true
    r.1 :: runOverlapTicks r.2 u n

/-! ### Concrete fixtures used by witnesses -/

/-- A concrete input snapshot: no keys held, pointer to the right, all
drop rolls landing on the xp branch. -/
def testInput : Input :=
  { w := false, a := false, s := false, d := false, cosA := 1, sinA := 0,
    mouseRight := true, dirTo := fun _ _ => (1, 0), dropRolls := fun _ => true,
    spawnSin := 0, spawnCos := 1, spawnLevelDelta := 0 }

/-- A world frozen behind a pending upgrade selection. -/
def pausedWorld : World :=
  { player := initialPlayer, enemies := [], projectiles := [], groundItems := [],
    upgrades := [], xp := 0, tick := 1, upgradeSelection := [idHealth], nextId := 1 }

/-- A running world (no pending selection). -/
def runWorld : World :=
  { player := initialPlayer, enemies := [], projectiles := [], groundItems := [],
    upgrades := [], xp := 0, tick := 1, upgradeSelection := [], nextId := 1 }

/-- A running world whose tick counter is 0 (the value the tick effect
first observes). -/
def spawnWorld : World := { runWorld with tick := 0 }

/-- A running world whose player already has negative health. -/
def negWorld : World :=
  { runWorld with player := { initialPlayer with stats.health.current := -5 } }

/-- A random stream that always returns index 0 (a possible sequence of
`Math.floor (Math.random() * length)` results). -/
def rndZero : ℕ → ℕ := fun _ => 0

/-- A random stream enumerating indices in order. -/
def rndId : ℕ → ℕ := fun k => k

/-- Rarity gates that all fail (a possible outcome of the 10% / 50%
rolls). -/
def gatesOff : String → Bool := fun _ => false

/-- The draw loop on this eligible set and random stream is still running
after every number of iterations. -/
def drawStuckOn (amount : ℕ) (avail : List Upgrade) (rnd : ℕ → ℕ) : Prop :=
  ∀ fuel, drawLoop amount avail rnd [] 0 fuel = none

def ctx0 : ProjCtx := { playerUuid := 0, effRadius := 48, hasLifeSteal := false }

def enemyFar : Entity := entityDef 5 nameSkeleton 1000 0 DEFAULT_STATS

def enemyNear : Entity := entityDef 6 nameSkeleton 0 10 DEFAULT_STATS

def enemyOther : Entity := entityDef 7 nameSkeleton 0 (-10) DEFAULT_STATS

def testProj : Projectile := projectileDef 10 0 0 0 1 1 0 2 10 200 false

/-- The cooldown invariant of the data model: `current` and `max` are
(nonnegative) integers with `current ≤ max`; integrality is part of the
invariant because every write is either 0, a stored integer max, an
integer effective max, or a decrement by 1. -/
def cooldownInv (c : CurrentMax) : Prop :=
  (∃ n : ℕ, c.current = (n : ℚ)) ∧ (∃ m : ℕ, c.max = (m : ℚ)) ∧ c.current ≤ c.max

/-! ### Association-list lemmas -/

theorem lookupA_setA_self {α β : Type} [DecidableEq α] (k : α) (v : β) (m : List (α × β)) :
    lookupA k (setA k v m) = some v := by
  induction m with
  | nil => simp [setA, lookupA]
  | cons e rest ih =>
    by_cases h : e.1 = k
    · simp [setA, h, lookupA]
    · simp [setA, h, lookupA, ih]

theorem lookupA_setA_ne {α β : Type} [DecidableEq α] (j k : α) (v : β) (m : List (α × β))
    (h : j ≠ k) : lookupA j (setA k v m) = lookupA j m := by
  have hkj : k ≠ j := fun hh => h hh.symm
  induction m with
  | nil => simp [setA, lookupA, hkj]
  | cons e rest ih =>
    by_cases hk : e.1 = k
    · simp [setA, hk, lookupA, hkj]
    · by_cases hj : e.1 = j <;> simp [setA, hk, lookupA, hj, h, ih]

theorem lookupA_decay (u : ℕ) (m : List (ℕ × ℚ)) :
    lookupA u (decayHitCooldowns m) =
      (lookupA u m).map (fun c => if 0 < c then c - 1 else c) := by
  induction m with
  | nil => simp [decayHitCooldowns, lookupA]
  | cons e rest ih =>
    by_cases hu : e.1 = u
    · by_cases hc : 0 < e.2 <;> simp [decayHitCooldowns, lookupA, hu, hc]
    · by_cases hc : 0 < e.2 <;>
        simpa [decayHitCooldowns, lookupA, hu, hc] using ih

theorem tickEffect_of_empty (w : World) (i : Input) (h : w.upgradeSelection = []) :
    tickEffect w i = tickRun w i := by
  unfold tickEffect
  rw [h]

/-! ### C8: a pending upgrade selection freezes the whole world -/

/-- C8: while the upgrade-selection list is non-empty the tick effect
returns early and performs no mutation at all: the player (position,
health, cooldowns), the enemies, the projectile list, the ground-item
list, the accumulated xp — the whole world — are left unchanged. -/
theorem c8_pending_selection_freezes_world (w : World) (i : Input)
    (h : w.upgradeSelection ≠ []) : tickEffect w i = w := by
  unfold tickEffect
  cases hs : w.upgradeSelection with
  | nil => exact absurd hs h
  | cons a l => rfl

/-- Witness for C8 at a concrete paused world. -/
theorem c8_witness :
    pausedWorld.upgradeSelection ≠ [] ∧ tickEffect pausedWorld testInput = pausedWorld :=
  ⟨by decide, c8_pending_selection_freezes_world pausedWorld testInput (by decide)⟩

/-! ### C9: selectUpgrade -/

/-- C9 counterexample: the claim says that with no pending selection the
select-upgrade event is a no-op that leaves UpgradeState unchanged, but
`selectUpgrade` performs no pending-selection check: applied with an
empty selection list it still increments the chosen id's level. -/
theorem c9_counterexample :
    (selectUpgrade idHealth [] []).1 ≠ ([] : UpgradeState) := by decide

/-- C9 (amended): `selectUpgrade` unconditionally increments the chosen
id's accumulated level by exactly 1, leaves every other id's level
unchanged and clears the selection list, whether or not a selection is
pending (the UI only renders the event's triggers while one is). -/
theorem c9_select_upgrade_unconditional (id : String) (ups : UpgradeState)
    (sel : List String) :
    (selectUpgrade id ups sel).2 = []
    ∧ levelOf (selectUpgrade id ups sel).1 id = levelOf ups id + 1
    ∧ ∀ j : String, j ≠ id → levelOf (selectUpgrade id ups sel).1 j = levelOf ups j := by
  refine ⟨rfl, ?_, ?_⟩
  · simp [selectUpgrade, levelOf, lookupA_setA_self]
  · intro j hj
    simp [selectUpgrade, levelOf, lookupA_setA_ne j id _ _ hj]

/-- Witness for C9 at a concrete state. -/
theorem c9_witness :
    idAttackRadius ≠ idHealth
    ∧ levelOf (selectUpgrade idHealth [(idHealth, 2)] [idHealth]).1 idAttackRadius
        = levelOf [(idHealth, 2)] idAttackRadius :=
  ⟨by decide,
   (c9_select_upgrade_unconditional idHealth [(idHealth, 2)] [idHealth]).2.2
     idAttackRadius (by decide)⟩

/-! ### C5: piercing re-hit window -/

theorem piercingResolve_spec (m : List (ℕ × ℚ)) (u : ℕ) :
    ((piercingResolve m u).1 = true ↔ (lookupA u m = some 0 ∨ lookupA u m = none))
    ∧ ((piercingResolve m u).1 = true → lookupA u (piercingResolve m u).2 = some 300) := by
  unfold piercingResolve
  by_cases h : lookupA u m = some 0 ∨ lookupA u m = none
  · simp [h, lookupA_setA_self]
  · simp [h]

theorem runOverlapTicks_window (u : ℕ) :
    ∀ c : ℕ, 1 ≤ c → ∀ m : List (ℕ × ℚ), lookupA u m = some ((c : ℕ) : ℚ) →
      runOverlapTicks m u c = List.replicate (c - 1) false ++ [true] := by
  intro c
  induction c with
  | zero => intro h; omega
  | succ n ih =>
    intro _ m hm
    have hdec : lookupA u (decayHitCooldowns m) = some ((n : ℕ) : ℚ) := by
      rw [lookupA_decay, hm]
      have hpos : (0 : ℚ) < ((n + 1 : ℕ) : ℚ) := by positivity
      have hsub : ((n + 1 : ℕ) : ℚ) - 1 = ((n : ℕ) : ℚ) := by push_cast; ring
      have hmap : (some ((n + 1 : ℕ) : ℚ)).map (fun c => if 0 < c then c - 1 else c)
          = some (if 0 < ((n + 1 : ℕ) : ℚ) then ((n + 1 : ℕ) : ℚ) - 1
              else ((n + 1 : ℕ) : ℚ)) := rfl
      rw [hmap, if_pos hpos, hsub]
    cases Nat.eq_zero_or_pos n with
    | inl h0 =>
      subst h0
      have hstep : hitCooldownTick m u true = (true, setA u 300 (decayHitCooldowns m)) := by
        simp [hitCooldownTick, piercingResolve, hdec]
      simp [runOverlapTicks, hstep]
    | inr hpos1 =>
      have hne : ((n : ℕ) : ℚ) ≠ 0 := Nat.cast_ne_zero.mpr (Nat.pos_iff_ne_zero.mp hpos1)
      have hcond : ¬(lookupA u (decayHitCooldowns m) = some 0
          ∨ lookupA u (decayHitCooldowns m) = none) := by
        rw [hdec]
        simp [hne]
      have hstep : hitCooldownTick m u true = (false, decayHitCooldowns m) := by
        simp [hitCooldownTick, piercingResolve, hcond]
      have hrest := ih hpos1 (decayHitCooldowns m) hdec
      simp only [runOverlapTicks, hstep, hrest]
      rw [Nat.succ_sub_one]
      cases n with
      | zero => omega
      | succ k => simp [List.replicate_succ]

/-- C5: for a piercing player-cast projectile overlapping an enemy every
tick, damage fires iff the enemy's per-target hit-cooldown entry is 0 or
absent, after which the entry is set to 300; a freshly hit enemy stays
immune for exactly the next 299 overlapping ticks (the entry decays by 1
per tick) and is damaged again on the 300th. -/
theorem c5_piercing_rehit_window (m : List (ℕ × ℚ)) (u : ℕ)
    (h : lookupA u m = some (300 : ℚ)) :
    runOverlapTicks m u 300 = List.replicate 299 false ++ [true]
    ∧ ∀ m2 : List (ℕ × ℚ),
        ((piercingResolve m2 u).1 = true ↔ (lookupA u m2 = some 0 ∨ lookupA u m2 = none))
        ∧ ((piercingResolve m2 u).1 = true → lookupA u (piercingResolve m2 u).2 = some 300) := by
  constructor
  · have h300 := runOverlapTicks_window u 300 (by norm_num) m (by exact_mod_cast h)
    have h299 : (300 : ℕ) - 1 = 299 := rfl
    rw [h299] at h300
    exact h300
  · intro m2
    exact piercingResolve_spec m2 u

/-- Witness for C5 at a concrete one-entry hit-cooldown map. -/
theorem c5_witness :
    lookupA 0 [((0 : ℕ), (300 : ℚ))] = some (300 : ℚ)
    ∧ runOverlapTicks [((0 : ℕ), (300 : ℚ))] 0 300 = List.replicate 299 false ++ [true] :=
  ⟨by decide, (c5_piercing_rehit_window [((0 : ℕ), (300 : ℚ))] 0 (by decide)).1⟩

/-! ### C7: derived stats are a pure function of base stats and upgrades -/

theorem applyUpgradeEntry_attackRadius (p : Entity) (v : ℕ) :
    applyUpgradeEntry p (idAttackRadius, v) =
      { p with stats.attack.radius := p.stats.attack.radius + 8 * (v : ℚ) } := rfl

theorem applyUpgradeEntry_movementSpeed (p : Entity) (v : ℕ) :
    applyUpgradeEntry p (idMovementSpeed, v) =
      { p with stats.speed := p.stats.speed + 25 * (v : ℚ) / 100 } := rfl

theorem applyUpgradeEntry_health (p : Entity) (v : ℕ) :
    applyUpgradeEntry p (idHealth, v) =
      { p with stats.health.max := p.stats.health.max + 10 * (v : ℚ) } := rfl

theorem applyUpgradeEntry_attackDamage (p : Entity) (v : ℕ) :
    applyUpgradeEntry p (idAttackDamage, v) =
      { p with stats.attack.damage := p.stats.attack.damage + 1 * (v : ℚ) } := rfl

theorem applyUpgradeEntry_attackSpeed (p : Entity) (v : ℕ) :
    applyUpgradeEntry p (idAttackSpeed, v) =
      { p with stats.attack.cooldown.max := p.stats.attack.cooldown.max - 5 * (v : ℚ) } := rfl

theorem applyUpgradeEntry_other (p : Entity) (k : String) (v : ℕ)
    (h1 : k ≠ idAttackRadius) (h2 : k ≠ idMovementSpeed) (h3 : k ≠ idHealth)
    (h4 : k ≠ idAttackDamage) (h5 : k ≠ idAttackSpeed) :
    applyUpgradeEntry p (k, v) = p := by
  unfold applyUpgradeEntry
  cases getUpgradeById k with
  | none => rfl
  | some u => simp [h1, h2, h3, h4, h5]

theorem levelOf_cons (j k : String) (v : ℕ) (rest : UpgradeState) :
    levelOf ((k, v) :: rest) j = if k = j then v else levelOf rest j := by
  by_cases h : k = j <;> simp [levelOf, lookupA, h]

theorem levelOf_eq_zero (k : String) (ups : UpgradeState) :
    k ∉ ups.map Prod.fst → levelOf ups k = 0 := by
  induction ups with
  | nil => intro _; simp [levelOf, lookupA]
  | cons e rest ih =>
    intro h
    rw [List.map_cons, List.mem_cons, not_or] at h
    have h1 : e.1 ≠ k := fun hh => h.1 hh.symm
    simp [levelOf, lookupA, h1]
    exact ih h.2

/-- Closed form of `playerWithUpgrades`: over a duplicate-free upgrade
record (JS object keys are unique) the fold applies each modifier's
per-level linear term exactly once and touches nothing else. -/
theorem playerWithUpgrades_eq (ups : UpgradeState) :
    ∀ p : Entity, (ups.map Prod.fst).Nodup →
    playerWithUpgrades p ups =
      { p with stats := { p.stats with
          speed := p.stats.speed + 25 * (levelOf ups idMovementSpeed : ℚ) / 100
          health := { p.stats.health with
            max := p.stats.health.max + 10 * (levelOf ups idHealth : ℚ) }
          attack := { p.stats.attack with
            radius := p.stats.attack.radius + 8 * (levelOf ups idAttackRadius : ℚ)
            damage := p.stats.attack.damage + 1 * (levelOf ups idAttackDamage : ℚ)
            cooldown := { p.stats.attack.cooldown with
              max := p.stats.attack.cooldown.max
                - 5 * (levelOf ups idAttackSpeed : ℚ) } } } } := by
  induction ups with
  | nil =>
    intro p _
    simp [playerWithUpgrades, levelOf, lookupA]
  | cons e rest ih =>
    intro p hnd
    obtain ⟨k, v⟩ := e
    rw [List.map_cons, List.nodup_cons] at hnd
    have hk_not : k ∉ rest.map Prod.fst := hnd.1
    have hnd' : (rest.map Prod.fst).Nodup := hnd.2
    have hfold : playerWithUpgrades p ((k, v) :: rest) =
        playerWithUpgrades (applyUpgradeEntry p (k, v)) rest := rfl
    have hz := levelOf_eq_zero k rest hk_not
    by_cases h1 : k = idAttackRadius
    · subst h1
      rw [hfold, applyUpgradeEntry_attackRadius, ih _ hnd']
      simp [levelOf_cons, hz, idAttackRadius, idMovementSpeed, idHealth,
        idAttackDamage, idAttackSpeed]
    · by_cases h2 : k = idMovementSpeed
      · subst h2
        rw [hfold, applyUpgradeEntry_movementSpeed, ih _ hnd']
        simp [levelOf_cons, hz, idAttackRadius, idMovementSpeed, idHealth,
          idAttackDamage, idAttackSpeed]
      · by_cases h3 : k = idHealth
        · subst h3
          rw [hfold, applyUpgradeEntry_health, ih _ hnd']
          simp [levelOf_cons, hz, idAttackRadius, idMovementSpeed, idHealth,
            idAttackDamage, idAttackSpeed]
        · by_cases h4 : k = idAttackDamage
          · subst h4
            rw [hfold, applyUpgradeEntry_attackDamage, ih _ hnd']
            simp [levelOf_cons, hz, idAttackRadius, idMovementSpeed, idHealth,
              idAttackDamage, idAttackSpeed]
          · by_cases h5 : k = idAttackSpeed
            · subst h5
              rw [hfold, applyUpgradeEntry_attackSpeed, ih _ hnd']
              simp [levelOf_cons, hz, idAttackRadius, idMovementSpeed, idHealth,
                idAttackDamage, idAttackSpeed]
            · rw [hfold, applyUpgradeEntry_other p k v h1 h2 h3 h4 h5, ih _ hnd']
              simp [levelOf_cons, h1, h2, h3, h4, h5]

/-- C7: deriving effective stats from base stats and an UpgradeState is a
pure computation with a closed-form result: each known upgrade's linear
modifier is applied exactly once per accumulated level (so re-deriving
from the same base and state always yields the same value, with no hidden
accumulation), and every field not named by a modifier — including the
stored base fields themselves, which the derivation reads but never
writes — is returned unchanged. -/
theorem c7_derived_stats_pure (p : Entity) (ups : UpgradeState)
    (hnd : (ups.map Prod.fst).Nodup) :
    (playerWithUpgrades p ups).stats.health.max
        = p.stats.health.max + 10 * (levelOf ups idHealth : ℚ)
    ∧ (playerWithUpgrades p ups).stats.speed
        = p.stats.speed + 25 * (levelOf ups idMovementSpeed : ℚ) / 100
    ∧ (playerWithUpgrades p ups).stats.attack.radius
        = p.stats.attack.radius + 8 * (levelOf ups idAttackRadius : ℚ)
    ∧ (playerWithUpgrades p ups).stats.attack.damage
        = p.stats.attack.damage + 1 * (levelOf ups idAttackDamage : ℚ)
    ∧ (playerWithUpgrades p ups).stats.attack.cooldown.max
        = p.stats.attack.cooldown.max - 5 * (levelOf ups idAttackSpeed : ℚ)
    ∧ (playerWithUpgrades p ups).stats.health.current = p.stats.health.current
    ∧ (playerWithUpgrades p ups).stats.attack.cooldown.current
        = p.stats.attack.cooldown.current
    ∧ (playerWithUpgrades p ups).stats.level = p.stats.level
    ∧ (playerWithUpgrades p ups).stats.radius = p.stats.radius
    ∧ (playerWithUpgrades p ups).stats.attack.range = p.stats.attack.range
    ∧ (playerWithUpgrades p ups).stats.attack.projectileSpeed
        = p.stats.attack.projectileSpeed
    ∧ (playerWithUpgrades p ups).x = p.x
    ∧ (playerWithUpgrades p ups).y = p.y
    ∧ (playerWithUpgrades p ups).uuid = p.uuid := by
  rw [playerWithUpgrades_eq ups p hnd]
  exact ⟨rfl, rfl, rfl, rfl, rfl, rfl, rfl, rfl, rfl, rfl, rfl, rfl, rfl, rfl⟩

/-- Witness for C7: one accumulated level of the health upgrade raises
the effective max health of the initial player by exactly 10. -/
theorem c7_witness :
    (([(idHealth, 1)] : UpgradeState).map Prod.fst).Nodup
    ∧ (playerWithUpgrades initialPlayer [(idHealth, 1)]).stats.health.max
        = initialPlayer.stats.health.max + 10 * (levelOf [(idHealth, 1)] idHealth : ℚ) :=
  ⟨by decide, (c7_derived_stats_pure initialPlayer [(idHealth, 1)] (by decide)).1⟩

/-! ### C4: the level-up upgrade draw -/

theorem getD_mem_or {α : Type} : ∀ (l : List α) (idx : ℕ) (d : α),
    l.getD idx d ∈ l ∨ l.getD idx d = d := by
  intro l
  induction l with
  | nil =>
    intro idx d
    right
    cases idx <;> rfl
  | cons b t ih =>
    intro idx d
    cases idx with
    | zero =>
      left
      exact List.mem_cons_self b t
    | succ j =>
      have h : (b :: t).getD (j + 1) d = t.getD j d := rfl
      rw [h]
      rcases ih j d with hmem | heq
      · left
        exact List.mem_cons_of_mem b hmem
      · right
        exact heq

theorem getD_mem_cons {α : Type} (a : α) (l : List α) (idx : ℕ) :
    (a :: l).getD idx a ∈ a :: l := by
  rcases getD_mem_or (a :: l) idx a with h | h
  · exact h
  · rw [h]
    exact List.mem_cons_self a l

theorem nodup_subset_length {α : Type} [DecidableEq α] (acc l : List α)
    (hnd : acc.Nodup) (hsub : ∀ x ∈ acc, x ∈ l) : acc.length ≤ l.length := by
  have h1 : acc.length = acc.toFinset.card := (List.toFinset_card_of_nodup hnd).symm
  have h2 : acc.toFinset ⊆ l.toFinset := by
    intro x hx
    rw [List.mem_toFinset] at hx ⊢
    exact hsub x hx
  have h3 := Finset.card_le_card h2
  have h4 : l.toFinset.card ≤ l.length := l.toFinset_card_le
  omega

theorem drawLoop_ok_spec (amount : ℕ) (avail : List Upgrade) (rnd : ℕ → ℕ) :
    ∀ (fuel k : ℕ) (acc : List String), acc.Nodup →
      (∀ x ∈ acc, x ∈ avail.map Upgrade.id) → acc.length ≤ amount →
      ∀ ids, drawLoop amount avail rnd acc k fuel = some (DrawOutcome.ok ids) →
        ids.length = amount ∧ ids.Nodup ∧ ∀ x ∈ ids, x ∈ avail.map Upgrade.id := by
  intro fuel
  induction fuel with
  | zero =>
    intro k acc _ _ _ ids h
    simp [drawLoop] at h
  | succ n ih =>
    intro k acc hnd hsub hle ids h
    by_cases hstop : amount ≤ acc.length
    · simp only [drawLoop] at h
      rw [if_pos hstop] at h
      have hacc : acc = ids := by
        have := Option.some.inj h
        exact DrawOutcome.ok.inj this
      subst hacc
      exact ⟨le_antisymm hle hstop, hnd, hsub⟩
    · cases avail with
      | nil =>
        simp only [drawLoop] at h
        rw [if_neg hstop] at h
        simp at h
      | cons a l =>
        simp only [drawLoop] at h
        rw [if_neg hstop] at h
        set u := (a :: l).getD (rnd k % (a :: l).length) a with hu
        have humem : u ∈ a :: l := getD_mem_cons a l _
        by_cases hmem : u.id ∈ acc
        · rw [if_pos hmem] at h
          exact ih (k + 1) acc hnd hsub (le_of_lt (lt_of_not_ge hstop)) ids h
        · rw [if_neg hmem] at h
          refine ih (k + 1) (acc ++ [u.id]) ?_ ?_ ?_ ids h
          · simp [List.nodup_append, hnd, hmem]
          · intro x hx
            rcases List.mem_append.mp hx with hx | hx
            · exact hsub x hx
            · rw [List.mem_singleton] at hx
              subst hx
              exact List.mem_map_of_mem Upgrade.id humem
          · have : acc.length < amount := lt_of_not_ge hstop
            simp [List.length_append]
            omega

theorem drawLoop_stuck (amount : ℕ) (a : Upgrade) (l : List Upgrade) (rnd : ℕ → ℕ)
    (hsmall : (a :: l).length < amount) :
    ∀ fuel k (acc : List String), acc.Nodup →
      (∀ x ∈ acc, x ∈ (a :: l).map Upgrade.id) →
      drawLoop amount (a :: l) rnd acc k fuel = none := by
  intro fuel
  induction fuel with
  | zero => intro k acc _ _; rfl
  | succ n ih =>
    intro k acc hnd hsub
    have hlen : acc.length ≤ (a :: l).length := by
      have := nodup_subset_length acc ((a :: l).map Upgrade.id) hnd hsub
      simpa using this
    have hstop : ¬ amount ≤ acc.length := by omega
    simp only [drawLoop]
    rw [if_neg hstop]
    set u := (a :: l).getD (rnd k % (a :: l).length) a with hu
    have humem : u ∈ a :: l := getD_mem_cons a l _
    by_cases hmem : u.id ∈ acc
    · rw [if_pos hmem]
      exact ih (k + 1) acc hnd hsub
    · rw [if_neg hmem]
      refine ih (k + 1) (acc ++ [u.id]) ?_ ?_
      · simp [List.nodup_append, hnd, hmem]
      · intro x hx
        rcases List.mem_append.mp hx with hx | hx
        · exact hsub x hx
        · rw [List.mem_singleton] at hx
          subst hx
          exact List.mem_map_of_mem Upgrade.id humem

theorem drawLoop_rndZero_stuck (amount : ℕ) (a : Upgrade) (l : List Upgrade) :
    ∀ fuel k (acc : List String), a.id ∈ acc → acc.length < amount →
      drawLoop amount (a :: l) rndZero acc k fuel = none := by
  intro fuel
  induction fuel with
  | zero => intro k acc _ _; rfl
  | succ n ih =>
    intro k acc hmem hlt
    have hstop : ¬ amount ≤ acc.length := by omega
    have hu : (a :: l).getD (rndZero k % (a :: l).length) a = a := by
      simp [rndZero]
    simp only [drawLoop]
    rw [if_neg hstop, hu, if_pos hmem]
    exact ih (k + 1) acc hmem hlt

theorem drawLoop_rndZero_never (amount : ℕ) (a : Upgrade) (l : List Upgrade)
    (h2 : 2 ≤ amount) :
    ∀ fuel, drawLoop amount (a :: l) rndZero [] 0 fuel = none := by
  intro fuel
  cases fuel with
  | zero => rfl
  | succ n =>
    have hstop : ¬ amount ≤ ([] : List String).length := by
      simp
      omega
    have hu : (a :: l).getD (rndZero 0 % (a :: l).length) a = a := by
      simp [rndZero]
    have hnm : a.id ∉ ([] : List String) := by simp
    simp only [drawLoop]
    rw [if_neg hstop, hu, if_neg hnm, List.nil_append]
    exact drawLoop_rndZero_stuck amount a l n 1 [a.id] (by simp) (by simp; omega)

/-- C4 counterexample: the availability filter on a fresh UpgradeState
with all rarity gates failing yields 5 eligible entries, and on the
random stream that always draws index 0 the draw loop runs forever — it
neither returns 3 ids nor substitutes any fallback, because
`getRandomUpgrades` contains no guard at all. -/
theorem c4_counterexample :
    (availableUpgrades [] gatesOff gatesOff).length = 5
    ∧ drawStuckOn 3 (availableUpgrades [] gatesOff gatesOff) rndZero := by
  refine ⟨by decide, ?_⟩
  unfold drawStuckOn
  cases h : availableUpgrades [] gatesOff gatesOff with
  | nil => exact absurd h (by decide)
  | cons a l => exact drawLoop_rndZero_never 3 a l (by norm_num)

/-- C4 (amended): the draw loop has no guard and no fallback.  Every run
that terminates with ids returns exactly `amount` distinct ids drawn from
the eligible set; when the eligible set is non-empty but holds fewer than
`amount` entries the loop never terminates, for any random stream and any
number of iterations; and an empty eligible set makes the first iteration
fault (the `undefined` element access), not fall back. -/
theorem c4_draw_no_guard :
    (∀ (amount : ℕ) (avail : List Upgrade) (rnd : ℕ → ℕ) (fuel : ℕ) (ids : List String),
        drawLoop amount avail rnd [] 0 fuel = some (DrawOutcome.ok ids) →
          ids.length = amount ∧ ids.Nodup ∧ ∀ x ∈ ids, x ∈ avail.map Upgrade.id)
    ∧ (∀ (amount : ℕ) (a : Upgrade) (l : List Upgrade) (rnd : ℕ → ℕ) (fuel k : ℕ),
        (a :: l).length < amount →
          drawLoop amount (a :: l) rnd [] k fuel = none)
    ∧ (∀ (amount : ℕ) (rnd : ℕ → ℕ) (fuel : ℕ), 1 ≤ amount →
        drawLoop amount [] rnd [] 0 (fuel + 1) = some DrawOutcome.crash) := by
  refine ⟨?_, ?_, ?_⟩
  · intro amount avail rnd fuel ids h
    exact drawLoop_ok_spec amount avail rnd fuel 0 [] (by simp) (by simp) (by simp) ids h
  · intro amount a l rnd fuel k hsmall
    exact drawLoop_stuck amount a l rnd hsmall fuel k [] (by simp) (by simp)
  · intro amount rnd fuel h1
    have hstop : ¬ amount ≤ ([] : List String).length := by
      simp
      omega
    simp only [drawLoop]
    rw [if_neg hstop]

/-- Witness for C4 (amended) on a terminating run over the real filter
output. -/
theorem c4_witness :
    drawLoop 3 (availableUpgrades [] gatesOff gatesOff) rndId [] 0 4
        = some (DrawOutcome.ok [idAttackRadius, idMovementSpeed, idHealth])
    ∧ ([idAttackRadius, idMovementSpeed, idHealth] : List String).length = 3
    ∧ ([idAttackRadius, idMovementSpeed, idHealth] : List String).Nodup
    ∧ ∀ x ∈ ([idAttackRadius, idMovementSpeed, idHealth] : List String),
        x ∈ (availableUpgrades [] gatesOff gatesOff).map Upgrade.id := by
  have hrun : drawLoop 3 (availableUpgrades [] gatesOff gatesOff) rndId [] 0 4
      = some (DrawOutcome.ok [idAttackRadius, idMovementSpeed, idHealth]) := by decide
  have hspec := c4_draw_no_guard.1 3 (availableUpgrades [] gatesOff gatesOff) rndId 4
    [idAttackRadius, idMovementSpeed, idHealth] hrun
  exact ⟨hrun, hspec⟩

/-! ### C6: a non-piercing projectile damages only the first overlapping
enemy in iteration order -/

theorem damageEnemies_first (hasLS : Bool) (pr : Projectile) (post : List Entity)
    (e : Entity) (ph : ℚ) (hnp : pr.isPiercing = false)
    (hhit : sqrtLe (dist2 pr.x pr.y e.x e.y) (e.stats.radius + pr.radius) = true) :
    ∀ pre : List Entity,
      (∀ e2 ∈ pre, sqrtLe (dist2 pr.x pr.y e2.x e2.y) (e2.stats.radius + pr.radius) = false) →
      damageEnemies hasLS pr (pre ++ e :: post) ph =
        { enemies := pre ++
            ({ e with stats.health.current := e.stats.health.current - pr.damage } :: post),
          ph := if hasLS then ph + 1 else ph, pr := pr, consumed := true } := by
  intro pre
  induction pre with
  | nil =>
    intro _
    simp [damageEnemies, hhit, hnp, processHit]
  | cons a rest ih =>
    intro hpre
    have ha : sqrtLe (dist2 pr.x pr.y a.x a.y) (a.stats.radius + pr.radius) = false :=
      hpre a (by simp)
    have hrest : ∀ e2 ∈ rest,
        sqrtLe (dist2 pr.x pr.y e2.x e2.y) (e2.stats.radius + pr.radius) = false :=
      fun e2 he2 => hpre e2 (by simp [he2])
    have hih := ih hrest
    simp [damageEnemies, ha, hih]

/-- C6: a non-piercing player-cast projectile overlapping one or more
enemies damages exactly the first overlapping enemy in iteration order by
exactly its damage (plus the 1 HP life-steal heal when owned), is removed
immediately, and produces no hit against any other enemy that tick. -/
theorem c6_nonpiercing_first_hit (ctx : ProjCtx) (px py : ℚ) (pr : Projectile)
    (pre post : List Entity) (e : Entity) (ph : ℚ)
    (hcast : pr.caster = ctx.playerUuid) (hnp : pr.isPiercing = false)
    (hpre : ∀ e2 ∈ pre, sqrtLe (dist2 pr.x pr.y e2.x e2.y) (e2.stats.radius + pr.radius) = false)
    (hhit : sqrtLe (dist2 pr.x pr.y e.x e.y) (e.stats.radius + pr.radius) = true) :
    stepProjectileCore ctx px py pr (pre ++ e :: post) ph =
      { keep := none,
        enemies := pre ++
          ({ e with stats.health.current := e.stats.health.current - pr.damage } :: post),
        ph := if ctx.hasLifeSteal then ph + 1 else ph } := by
  have hd := damageEnemies_first ctx.hasLifeSteal pr post e ph hnp hhit pre hpre
  simp [stepProjectileCore, hcast, hd]

/-- Witness for C6 at a concrete projectile and three enemies: the far
enemy is skipped, the first overlapping enemy takes exactly the
projectile damage, the enemy behind it is untouched, the projectile is
removed. -/
theorem c6_witness :
    testProj.caster = ctx0.playerUuid
    ∧ testProj.isPiercing = false
    ∧ (∀ e2 ∈ [enemyFar],
        sqrtLe (dist2 testProj.x testProj.y e2.x e2.y) (e2.stats.radius + testProj.radius) = false)
    ∧ sqrtLe (dist2 testProj.x testProj.y enemyNear.x enemyNear.y)
        (enemyNear.stats.radius + testProj.radius) = true
    ∧ stepProjectileCore ctx0 0 0 testProj ([enemyFar] ++ enemyNear :: [enemyOther]) 5 =
        { keep := none,
          enemies := [enemyFar] ++
            ({ enemyNear with
                stats.health.current := enemyNear.stats.health.current - testProj.damage }
              :: [enemyOther]),
          ph := if ctx0.hasLifeSteal then (5 : ℚ) + 1 else 5 } :=
  ⟨rfl, rfl, by with_unfolding_all decide, by with_unfolding_all decide,
   c6_nonpiercing_first_hit ctx0 0 0 testProj [enemyFar] [enemyOther] enemyNear 5
     rfl rfl (by with_unfolding_all decide) (by with_unfolding_all decide)⟩

/-! ### Frame lemmas for the tick pipeline phases -/

theorem movePlayer_stats (i : Input) (speed : ℚ) (p : Entity) :
    (movePlayer i speed p).stats = p.stats := rfl

theorem movePlayer_uuid (i : Input) (speed : ℚ) (p : Entity) :
    (movePlayer i speed p).uuid = p.uuid := rfl

theorem playerAttack_uuid (i : Input) (eff : Stats) (piercing : Bool) (p : Entity) (nid : ℕ) :
    (playerAttack i eff piercing p nid).player.uuid = p.uuid := by
  unfold playerAttack
  split <;> rfl

theorem playerAttack_health (i : Input) (eff : Stats) (piercing : Bool) (p : Entity) (nid : ℕ) :
    (playerAttack i eff piercing p nid).player.stats.health = p.stats.health := by
  unfold playerAttack
  split <;> rfl

theorem playerAttack_cooldown (i : Input) (eff : Stats) (piercing : Bool) (p : Entity)
    (nid : ℕ) :
    (playerAttack i eff piercing p nid).player.stats.attack.cooldown =
      (if p.stats.attack.cooldown.current = 0
        then { p.stats.attack.cooldown with current := eff.attack.cooldown.max }
        else { p.stats.attack.cooldown with
                current := p.stats.attack.cooldown.current - 1 }) := by
  unfold playerAttack
  split <;> rfl

theorem playerAttack_nextId_ge (i : Input) (eff : Stats) (piercing : Bool) (p : Entity)
    (nid : ℕ) : nid ≤ (playerAttack i eff piercing p nid).nextId := by
  unfold playerAttack
  split <;> simp

/-- Any per-enemy predicate insensitive to `stats.health.current` is
preserved by the enemy-damaging loop of a player-cast projectile. -/
theorem damageEnemies_pred (f : Entity → Prop)
    (hf : ∀ (e : Entity) (d : ℚ), f e → f { e with stats.health.current := d })
    (hasLS : Bool) :
    ∀ (es : List Entity) (pr : Projectile) (ph : ℚ),
      (∀ e ∈ es, f e) → ∀ e' ∈ (damageEnemies hasLS pr es ph).enemies, f e' := by
  intro es
  induction es with
  | nil =>
    intro pr ph _ e' he'
    simp [damageEnemies] at he'
  | cons e rest ih =>
    intro pr ph hes e' he'
    have hfe : f e := hes e (List.mem_cons_self e rest)
    have hrest : ∀ x ∈ rest, f x := fun x hx => hes x (List.mem_cons_of_mem e hx)
    simp only [damageEnemies, processHit] at he'
    split at he'
    · split at he'
      · split at he'
        · simp only [List.mem_cons] at he'
          rcases he' with he' | he'
          · subst he'
            exact hf e _ hfe
          · exact ih _ _ hrest e' he'
        · simp only [List.mem_cons] at he'
          rcases he' with he' | he'
          · subst he'
            exact hfe
          · exact ih _ _ hrest e' he'
      · simp only [List.mem_cons] at he'
        rcases he' with he' | he'
        · subst he'
          exact hf e _ hfe
        · exact hrest e' he'
    · simp only [List.mem_cons] at he'
      rcases he' with he' | he'
      · subst he'
        exact hfe
      · exact ih _ _ hrest e' he'

theorem stepProjectileCore_enemies (ctx : ProjCtx) (px py : ℚ) (pr : Projectile)
    (es : List Entity) (ph : ℚ) :
    (stepProjectileCore ctx px py pr es ph).enemies
        = (damageEnemies ctx.hasLifeSteal pr es ph).enemies
    ∨ (stepProjectileCore ctx px py pr es ph).enemies = es := by
  unfold stepProjectileCore
  split
  · dsimp only
    split
    · left
      rfl
    · split
      · left
        rfl
      · left
        rfl
  · split
    · right
      rfl
    · split
      · right
        rfl
      · right
        rfl

theorem stepProjectileCore_ph_cases (ctx : ProjCtx) (px py : ℚ) (pr : Projectile)
    (es : List Entity) (ph : ℚ) :
    (stepProjectileCore ctx px py pr es ph).ph = (damageEnemies ctx.hasLifeSteal pr es ph).ph
    ∨ (stepProjectileCore ctx px py pr es ph).ph = ph
    ∨ (stepProjectileCore ctx px py pr es ph).ph = ph - 1 := by
  unfold stepProjectileCore
  split
  · dsimp only
    split
    · left
      rfl
    · split
      · left
        rfl
      · left
        rfl
  · split
    · right
      right
      rfl
    · split
      · right
        left
        rfl
      · right
        left
        rfl

theorem stepProjectileCore_pred (f : Entity → Prop)
    (hf : ∀ (e : Entity) (d : ℚ), f e → f { e with stats.health.current := d })
    (ctx : ProjCtx) (px py : ℚ) (pr : Projectile) (es : List Entity) (ph : ℚ)
    (hes : ∀ e ∈ es, f e) :
    ∀ e' ∈ (stepProjectileCore ctx px py pr es ph).enemies, f e' := by
  intro e' he'
  rcases stepProjectileCore_enemies ctx px py pr es ph with h | h
  · rw [h] at he'
    exact damageEnemies_pred f hf ctx.hasLifeSteal es pr ph hes e' he'
  · rw [h] at he'
    exact hes e' he'

theorem processProjectiles_pred (f : Entity → Prop)
    (hf : ∀ (e : Entity) (d : ℚ), f e → f { e with stats.health.current := d })
    (ctx : ProjCtx) (px py : ℚ) :
    ∀ (prs : List Projectile) (es : List Entity) (ph : ℚ),
      (∀ e ∈ es, f e) →
      ∀ e' ∈ (processProjectiles ctx px py prs es ph).enemies, f e' := by
  intro prs
  induction prs with
  | nil =>
    intro es ph hes e' he'
    simp only [processProjectiles] at he'
    exact hes e' he'
  | cons pr rest ih =>
    intro es ph hes e' he'
    have hstep : ∀ x ∈ (stepProjectile ctx px py pr es ph).enemies, f x :=
      stepProjectileCore_pred f hf ctx px py (advanceProjectile pr) es ph hes
    simp only [processProjectiles] at he'
    split at he'
    · exact ih _ _ hstep e' he'
    · exact ih _ _ hstep e' he'

theorem damageEnemies_ph_noLS :
    ∀ (es : List Entity) (pr : Projectile) (ph : ℚ),
      (damageEnemies false pr es ph).ph = ph := by
  intro es
  induction es with
  | nil => intro pr ph; rfl
  | cons e rest ih =>
    intro pr ph
    simp only [damageEnemies, processHit]
    split
    · split
      · split
        · simp [ih]
        · simp [ih]
      · simp
    · simp [ih]

theorem stepProjectileCore_ph (ctx : ProjCtx) (px py : ℚ) (pr : Projectile)
    (es : List Entity) (ph : ℚ) (hls : ctx.hasLifeSteal = false) :
    (stepProjectileCore ctx px py pr es ph).ph ≤ ph := by
  rcases stepProjectileCore_ph_cases ctx px py pr es ph with h | h | h
  · rw [h, hls, damageEnemies_ph_noLS]
  · rw [h]
  · rw [h]
    linarith

theorem processProjectiles_ph (ctx : ProjCtx) (px py : ℚ) (hls : ctx.hasLifeSteal = false) :
    ∀ (prs : List Projectile) (es : List Entity) (ph : ℚ),
      (processProjectiles ctx px py prs es ph).ph ≤ ph := by
  intro prs
  induction prs with
  | nil => intro es ph; simp [processProjectiles]
  | cons pr rest ih =>
    intro es ph
    have h1 : (stepProjectile ctx px py pr es ph).ph ≤ ph :=
      stepProjectileCore_ph ctx px py (advanceProjectile pr) es ph hls
    simp only [processProjectiles]
    split
    · exact le_trans (ih _ _) h1
    · exact le_trans (ih _ _) h1

/-! ### Enemy-phase and ground-item-phase lemmas -/

theorem cooldownInv_nonneg (c : CurrentMax) (hc : cooldownInv c) : 0 ≤ c.current := by
  obtain ⟨⟨n, hn⟩, _, _⟩ := hc
  rw [hn]
  positivity

theorem cooldownInv_reset (c : CurrentMax) (hc : cooldownInv c) :
    cooldownInv { c with current := c.max } := by
  obtain ⟨⟨n, hn⟩, ⟨m, hm⟩, hle⟩ := hc
  exact ⟨⟨m, hm⟩, ⟨m, hm⟩, le_refl _⟩

theorem cooldownInv_dec (c : CurrentMax) (hc : cooldownInv c) (hne : ¬ c.current = 0) :
    cooldownInv { c with current := c.current - 1 } := by
  obtain ⟨⟨n, hn⟩, ⟨m, hm⟩, hle⟩ := hc
  cases n with
  | zero => exact absurd (by rw [hn]; norm_num) hne
  | succ k =>
    refine ⟨⟨k, ?_⟩, ⟨m, hm⟩, ?_⟩
    · rw [hn]
      push_cast
      ring
    · dsimp only
      have h1 : c.current - 1 ≤ c.current := by linarith
      exact le_trans h1 hle

theorem processEnemies_cooldownInv (i : Input) (ctx : ProjCtx) (px py : ℚ) :
    ∀ (es : List Entity) (k nid : ℕ),
      (∀ e ∈ es, cooldownInv e.stats.attack.cooldown) →
      ∀ e' ∈ (processEnemies i ctx px py es k nid).enemies,
        cooldownInv e'.stats.attack.cooldown := by
  intro es
  induction es with
  | nil =>
    intro k nid _ e' he'
    simp [processEnemies] at he'
  | cons e rest ih =>
    intro k nid hes e' he'
    have hce : cooldownInv e.stats.attack.cooldown := hes e (List.mem_cons_self e rest)
    have hrest : ∀ x ∈ rest, cooldownInv x.stats.attack.cooldown :=
      fun x hx => hes x (List.mem_cons_of_mem e hx)
    simp only [processEnemies] at he'
    split at he'
    · exact ih _ _ hrest e' he'
    · split at he'
      · simp only [List.mem_cons] at he'
        rcases he' with he' | he'
        · subst he'
          exact hce
        · exact ih _ _ hrest e' he'
      · split at he'
        · simp only [List.mem_cons] at he'
          rcases he' with he' | he'
          · subst he'
            exact cooldownInv_reset _ hce
          · exact ih _ _ hrest e' he'
        · rename_i hcur
          simp only [List.mem_cons] at he'
          rcases he' with he' | he'
          · subst he'
            exact cooldownInv_dec _ hce hcur
          · exact ih _ _ hrest e' he'

theorem processEnemies_uuid (i : Input) (ctx : ProjCtx) (px py : ℚ) :
    ∀ (es : List Entity) (k nid : ℕ),
      ∀ e' ∈ (processEnemies i ctx px py es k nid).enemies,
        e'.uuid ∈ es.map Entity.uuid := by
  intro es
  induction es with
  | nil =>
    intro k nid e' he'
    simp [processEnemies] at he'
  | cons e rest ih =>
    intro k nid e' he'
    simp only [processEnemies] at he'
    split at he'
    · exact List.mem_cons_of_mem _ (ih _ _ e' he')
    · split at he'
      · simp only [List.mem_cons] at he'
        rcases he' with he' | he'
        · subst he'
          exact List.mem_cons_self _ _
        · exact List.mem_cons_of_mem _ (ih _ _ e' he')
      · split at he'
        · simp only [List.mem_cons] at he'
          rcases he' with he' | he'
          · subst he'
            exact List.mem_cons_self _ _
          · exact List.mem_cons_of_mem _ (ih _ _ e' he')
        · simp only [List.mem_cons] at he'
          rcases he' with he' | he'
          · subst he'
            exact List.mem_cons_self _ _
          · exact List.mem_cons_of_mem _ (ih _ _ e' he')

theorem processEnemies_drops_xp (i : Input) (ctx : ProjCtx) (px py : ℚ)
    (hroll : ∀ n, i.dropRolls n = true) :
    ∀ (es : List Entity) (k nid : ℕ),
      ∀ g ∈ (processEnemies i ctx px py es k nid).drops, g.type = GIType.xp := by
  intro es
  induction es with
  | nil =>
    intro k nid g hg
    simp [processEnemies] at hg
  | cons e rest ih =>
    intro k nid g hg
    simp only [processEnemies] at hg
    split at hg
    · rw [hroll k] at hg
      simp only [if_true, List.mem_cons] at hg
      rcases hg with hg | hg
      · subst hg
        rfl
      · exact ih _ _ g hg
    · split at hg
      · exact ih _ _ g hg
      · split at hg
        · exact ih _ _ g hg
        · exact ih _ _ g hg

theorem processEnemies_nextId (i : Input) (ctx : ProjCtx) (px py : ℚ) :
    ∀ (es : List Entity) (k nid : ℕ), nid ≤ (processEnemies i ctx px py es k nid).nextId := by
  intro es
  induction es with
  | nil =>
    intro k nid
    simp [processEnemies]
  | cons e rest ih =>
    intro k nid
    simp only [processEnemies]
    split
    · exact le_trans (by omega) (ih (k + 1) (nid + 1))
    · split
      · exact ih k nid
      · split
        · exact le_trans (by omega) (ih k (nid + 1))
        · exact ih k nid

theorem processGroundItems_noHealth (i : Input) (px py effR : ℚ) :
    ∀ (gis : List GroundItem) (ph xp : ℚ),
      (∀ g ∈ gis, g.type ≠ GIType.health) →
      (processGroundItems i px py effR gis ph xp).ph = ph
      ∧ ∀ g' ∈ (processGroundItems i px py effR gis ph xp).items,
          g'.type ≠ GIType.health := by
  intro gis
  induction gis with
  | nil =>
    intro ph xp _
    exact ⟨rfl, by simp [processGroundItems]⟩
  | cons g rest ih =>
    intro ph xp hgi
    have hg : g.type ≠ GIType.health := hgi g (List.mem_cons_self g rest)
    have hrest : ∀ x ∈ rest, x.type ≠ GIType.health :=
      fun x hx => hgi x (List.mem_cons_of_mem g hx)
    simp only [processGroundItems]
    split
    · -- xp item
      split
      · split
        · exact ih _ _ hrest
        · refine ⟨(ih _ _ hrest).1, ?_⟩
          intro g' hg'
          simp only [List.mem_cons] at hg'
          rcases hg' with hg' | hg'
          · subst hg'
            exact hg
          · exact (ih _ _ hrest).2 g' hg'
      · refine ⟨(ih _ _ hrest).1, ?_⟩
        intro g' hg'
        simp only [List.mem_cons] at hg'
        rcases hg' with hg' | hg'
        · subst hg'
          exact hg
        · exact (ih _ _ hrest).2 g' hg'
    · -- health item: impossible under the hypothesis
      rename_i hgt
      exact absurd hgt hg
    · -- inert item kind
      refine ⟨(ih _ _ hrest).1, ?_⟩
      intro g' hg'
      simp only [List.mem_cons] at hg'
      rcases hg' with hg' | hg'
      · subst hg'
        exact hg
      · exact (ih _ _ hrest).2 g' hg'
    · -- inert coin kind
      refine ⟨(ih _ _ hrest).1, ?_⟩
      intro g' hg'
      simp only [List.mem_cons] at hg'
      rcases hg' with hg' | hg'
      · subst hg'
        exact hg
      · exact (ih _ _ hrest).2 g' hg'

/-! ### C1: the end-of-tick clamp bounds the player health -/

/-- C1: after every completed (unpaused) tick, the player's
`health.current` is at most the effective (upgrade-derived) health max:
whatever life-steal heals, health pickups and projectile hits ran during
the pipeline, the final clamp (App.tsx line 502) takes the minimum with
the effective max, and the facing update after it does not touch
health. -/
theorem c1_health_clamped (w : World) (i : Input) (hsel : w.upgradeSelection = []) :
    (tickEffect w i).player.stats.health.current
      ≤ (playerWithUpgrades w.player w.upgrades).stats.health.max := by
  rw [tickEffect_of_empty w i hsel]
  have h : (tickRun w i).player.stats.health.current
      = min (tickGres w i).ph (effStats w).health.max := rfl
  rw [h]
  exact min_le_right _ _

/-- Witness for C1 at a concrete running world. -/
theorem c1_witness :
    runWorld.upgradeSelection = []
    ∧ (tickEffect runWorld testInput).player.stats.health.current
        ≤ (playerWithUpgrades runWorld.player runWorld.upgrades).stats.health.max :=
  ⟨rfl, c1_health_clamped runWorld testInput rfl⟩

/-! ### C3: enemy creation -/

/-- C3 counterexample: the claim restricts spawning to ticks 100, 200,
300, … and to the tick-counter check alone, but (a) the pipeline also
spawns exactly one enemy at tick counter 0 (0 % 100 = 0), and (b) the
mount initializer (App.tsx lines 515-526) creates 10 enemies by a second
mechanism outside the tick pipeline. -/
theorem c3_counterexample :
    spawnWorld.tick = 0
    ∧ ((tickEffect spawnWorld testInput).enemies.filter
        (fun e => decide (spawnWorld.nextId ≤ e.uuid))).length = 1
    ∧ (initialEnemies (fun _ => (1, 0)) 0 0 1).length = 10 := by
  refine ⟨rfl, ?_, by with_unfolding_all decide⟩
  with_unfolding_all decide

/-- C3 (amended): within the tick pipeline the spawn check is the sole
creator of enemies — exactly one enemy bearing a fresh uuid is appended
on each tick whose counter is divisible by 100 (including tick 0) and
none on any other tick, while every other post-tick enemy carries the
uuid of a pre-tick enemy; separately, the mount initializer creates 10
enemies once at startup, outside the pipeline. -/
theorem spawnEnemy_uuid (i : Input) (plevel : ℤ) (px py : ℚ) (nid : ℕ) :
    (spawnEnemy i plevel px py nid).uuid = nid := rfl

theorem c3_spawn_check (w : World) (i : Input) (hsel : w.upgradeSelection = [])
    (hfresh : ∀ e ∈ w.enemies, e.uuid < w.nextId) :
    (((tickEffect w i).enemies.filter
        (fun e => decide (w.nextId ≤ e.uuid))).length
      = if w.tick % 100 = 0 then 1 else 0)
    ∧ ∀ (angles : ℕ → ℚ × ℚ) (px py : ℚ) (sid : ℕ),
        (initialEnemies angles px py sid).length = 10 := by
  constructor
  · rw [tickEffect_of_empty w i hsel]
    have hen : (tickRun w i).enemies = (tickSpawned w i).1 := rfl
    rw [hen]
    have hpres : ∀ e ∈ (tickPres w i).enemies, e.uuid < w.nextId := by
      intro e he
      exact processProjectiles_pred (fun e => e.uuid < w.nextId) (fun e d h => h)
        (tickCtx w) (tickAtk w i).player.x (tickAtk w i).player.y (tickProjs1 w i)
        w.enemies (tickAtk w i).player.stats.health.current hfresh e he
    have heres : ∀ e ∈ (tickEres w i).enemies, e.uuid < w.nextId := by
      intro e he
      have hu := processEnemies_uuid i (tickCtx w) (tickAtk w i).player.x
        (tickAtk w i).player.y (tickPres w i).enemies 0 (tickAtk w i).nextId e he
      rw [List.mem_map] at hu
      obtain ⟨e2, he2, heq⟩ := hu
      rw [← heq]
      exact hpres e2 he2
    have hfil : ((tickEres w i).enemies.filter
        (fun e => decide (w.nextId ≤ e.uuid))) = [] := by
      rw [List.filter_eq_nil_iff]
      intro e he
      simp only [decide_eq_true_eq, not_le]
      exact heres e he
    have hge : w.nextId ≤ (tickEres w i).nextId := by
      have h1 : w.nextId ≤ (tickAtk w i).nextId := playerAttack_nextId_ge i (effStats w)
        (hasUpgrade w.upgrades idPiercing) (tickP1 w i) w.nextId
      have h2 : (tickAtk w i).nextId ≤ (tickEres w i).nextId := processEnemies_nextId i
        (tickCtx w) (tickAtk w i).player.x (tickAtk w i).player.y (tickPres w i).enemies
        0 (tickAtk w i).nextId
      omega
    unfold tickSpawned
    by_cases ht : w.tick % 100 = 0
    · rw [if_pos ht, if_pos ht]
      rw [List.filter_append, hfil, List.nil_append]
      simp [List.filter_cons, spawnEnemy_uuid, hge]
    · rw [if_neg ht, if_neg ht]
      rw [hfil]
      rfl
  · intro angles px py sid
    simp [initialEnemies]

/-- Witness for C3 (amended) at a concrete running world. -/
theorem c3_witness :
    runWorld.upgradeSelection = []
    ∧ (∀ e ∈ runWorld.enemies, e.uuid < runWorld.nextId)
    ∧ ((tickEffect runWorld testInput).enemies.filter
        (fun e => decide (runWorld.nextId ≤ e.uuid))).length
        = if runWorld.tick % 100 = 0 then 1 else 0 :=
  ⟨rfl, by simp [runWorld], (c3_spawn_check runWorld testInput rfl (by simp [runWorld])).1⟩

/-! ### C10: the player is never removed and health has no lower bound -/

theorem tickRun_player_uuid (w : World) (i : Input) :
    (tickRun w i).player.uuid = w.player.uuid := by
  have h : (tickRun w i).player.uuid = (tickAtk w i).player.uuid := rfl
  rw [h]
  unfold tickAtk
  rw [playerAttack_uuid]
  rfl

theorem tickAtk_player_health (w : World) (i : Input) :
    (tickAtk w i).player.stats.health = w.player.stats.health := by
  unfold tickAtk
  rw [playerAttack_health]
  rfl

/-- One guarded step preserves the C10 invariants: with no life steal, no
health pickups on the ground, and all drop rolls landing on xp, the
player's health never increases, the player entity survives with its uuid,
the selection list stays empty, the upgrade record is untouched and no
health item appears. -/
theorem stepWorld_invariants (w : World) (i : Input)
    (hsel : w.upgradeSelection = [])
    (hls : levelOf w.upgrades idLifeSteal = 0)
    (hgi : ∀ g ∈ w.groundItems, g.type ≠ GIType.health)
    (hroll : ∀ n, i.dropRolls n = true) :
    (stepWorld w i).player.stats.health.current ≤ w.player.stats.health.current
    ∧ (stepWorld w i).player.uuid = w.player.uuid
    ∧ (stepWorld w i).upgradeSelection = []
    ∧ (stepWorld w i).upgrades = w.upgrades
    ∧ ∀ g ∈ (stepWorld w i).groundItems, g.type ≠ GIType.health := by
  have hsel' : ({ w with tick := w.tick + 1 } : World).upgradeSelection = [] := hsel
  have hw : stepWorld w i = tickRun { w with tick := w.tick + 1 } i := by
    unfold stepWorld
    exact tickEffect_of_empty _ i hsel'
  set w1 : World := { w with tick := w.tick + 1 } with hw1
  have hlsB : (tickCtx w1).hasLifeSteal = false := by
    have : levelOf w1.upgrades idLifeSteal = 0 := hls
    simp [tickCtx, hasUpgrade, this]
  have hgis : ∀ g ∈ w1.groundItems ++ (tickEres w1 i).drops, g.type ≠ GIType.health := by
    intro g hg
    rcases List.mem_append.mp hg with hg | hg
    · exact hgi g hg
    · have := processEnemies_drops_xp i (tickCtx w1) (tickAtk w1 i).player.x
        (tickAtk w1 i).player.y hroll (tickPres w1 i).enemies 0 (tickAtk w1 i).nextId g hg
      rw [this]
      simp
  have hgres := processGroundItems_noHealth i (tickAtk w1 i).player.x
    (tickAtk w1 i).player.y (effStats w1).radius
    (w1.groundItems ++ (tickEres w1 i).drops) (tickPres w1 i).ph w1.xp hgis
  refine ⟨?_, ?_, ?_, ?_, ?_⟩
  · rw [hw]
    have h0 : (tickRun w1 i).player.stats.health.current
        = min (tickGres w1 i).ph (effStats w1).health.max := rfl
    rw [h0]
    have h1 : (tickGres w1 i).ph = (tickPres w1 i).ph := hgres.1
    have h2 : (tickPres w1 i).ph ≤ (tickAtk w1 i).player.stats.health.current :=
      processProjectiles_ph (tickCtx w1) (tickAtk w1 i).player.x (tickAtk w1 i).player.y
        hlsB (tickProjs1 w1 i) w1.enemies (tickAtk w1 i).player.stats.health.current
    have h3 : (tickAtk w1 i).player.stats.health = w.player.stats.health :=
      tickAtk_player_health w1 i
    have h4 : (tickAtk w1 i).player.stats.health.current = w.player.stats.health.current := by
      rw [h3]
    calc min (tickGres w1 i).ph (effStats w1).health.max
        ≤ (tickGres w1 i).ph := min_le_left _ _
      _ = (tickPres w1 i).ph := h1
      _ ≤ (tickAtk w1 i).player.stats.health.current := h2
      _ = w.player.stats.health.current := h4
  · rw [hw, tickRun_player_uuid]
  · rw [hw]
    exact hsel'
  · rw [hw]
    rfl
  · rw [hw]
    intro g hg
    exact hgres.2 g hg

/-- C10: the player entity is never removed and its health has no lower
bound: no pipeline step compares the player's health to 0, each
enemy-projectile hit subtracts 1 unconditionally, and only the upper
clamp to the effective max is applied — so once negative (and with no
heal sources: no life steal, no health drops), the player's health stays
negative forever while every subsequent tick keeps simulating the same
surviving player. -/
theorem c10_player_never_dies (w : World) (ι : ℕ → Input)
    (hsel : w.upgradeSelection = [])
    (hls : levelOf w.upgrades idLifeSteal = 0)
    (hgi : ∀ g ∈ w.groundItems, g.type ≠ GIType.health)
    (hroll : ∀ n k, (ι n).dropRolls k = true)
    (hneg : w.player.stats.health.current < 0) :
    ∀ n : ℕ, (iterWorlds w ι n).player.uuid = w.player.uuid
      ∧ (iterWorlds w ι n).player.stats.health.current < 0 := by
  have main : ∀ n : ℕ, (iterWorlds w ι n).player.uuid = w.player.uuid
      ∧ (iterWorlds w ι n).player.stats.health.current ≤ w.player.stats.health.current
      ∧ (iterWorlds w ι n).upgradeSelection = []
      ∧ (iterWorlds w ι n).upgrades = w.upgrades
      ∧ ∀ g ∈ (iterWorlds w ι n).groundItems, g.type ≠ GIType.health := by
    intro n
    induction n with
    | zero => exact ⟨rfl, le_refl _, hsel, rfl, hgi⟩
    | succ m ih =>
      obtain ⟨hu, hh, hs, hup, hgi2⟩ := ih
      have hls2 : levelOf (iterWorlds w ι m).upgrades idLifeSteal = 0 := by
        rw [hup]
        exact hls
      have hstep := stepWorld_invariants (iterWorlds w ι m) (ι m) hs hls2 hgi2 (hroll m)
      have heq : iterWorlds w ι (m + 1) = stepWorld (iterWorlds w ι m) (ι m) := rfl
      rw [heq]
      exact ⟨by rw [hstep.2.1, hu],
        le_trans hstep.1 hh,
        hstep.2.2.1,
        by rw [hstep.2.2.2.1, hup],
        hstep.2.2.2.2⟩
  intro n
  exact ⟨(main n).1, lt_of_le_of_lt (main n).2.1 hneg⟩

/-- Witness for C10 at a concrete world with health −5. -/
theorem c10_witness :
    negWorld.upgradeSelection = []
    ∧ levelOf negWorld.upgrades idLifeSteal = 0
    ∧ negWorld.player.stats.health.current < 0
    ∧ ∀ n : ℕ,
        (iterWorlds negWorld (fun _ => testInput) n).player.uuid = negWorld.player.uuid
        ∧ (iterWorlds negWorld (fun _ => testInput) n).player.stats.health.current < 0 :=
  ⟨rfl, rfl, by with_unfolding_all decide,
   c10_player_never_dies negWorld (fun _ => testInput) rfl rfl
     (fun g hg => absurd hg (List.not_mem_nil g))
     (fun _ _ => rfl)
     (by with_unfolding_all decide)⟩

/-! ### C2: the cooldown invariant -/

theorem tickRun_player_cooldown (w : World) (i : Input) :
    (tickRun w i).player.stats.attack.cooldown
      = (if w.player.stats.attack.cooldown.current = 0
          then { w.player.stats.attack.cooldown with
                  current := (effStats w).attack.cooldown.max }
          else { w.player.stats.attack.cooldown with
                  current := w.player.stats.attack.cooldown.current - 1 }) := by
  have h : (tickRun w i).player.stats.attack.cooldown
      = (tickAtk w i).player.stats.attack.cooldown := rfl
  rw [h]
  unfold tickAtk
  rw [playerAttack_cooldown]
  rfl

theorem spawnEnemy_cooldownInv (i : Input) (plevel : ℤ) (px py : ℚ) (nid : ℕ) :
    cooldownInv (spawnEnemy i plevel px py nid).stats.attack.cooldown := by
  have h : (spawnEnemy i plevel px py nid).stats.attack.cooldown
      = { current := 0, max := 100 } := rfl
  rw [h]
  exact ⟨⟨0, by norm_num⟩, ⟨100, by norm_num⟩, by norm_num⟩

/-- C2: the cooldown invariant `0 ≤ cooldown.current ≤ cooldown.max`
(with both fields integral) is preserved by every tick for the player and
every enemy: the attack step either resets a zero cooldown to the
effective max — bounded by the stored max as long as 5 × the accumulated
attack-speed level does not exceed it, which the catalog's level cap of
20 over the base max of 105 guarantees in reachable states — or
decrements a positive one by 1; enemies reset to their own stored max,
and a freshly spawned enemy starts at 0 of max 100.  No pipeline step
drives any cooldown negative or above the stored max. -/
theorem c2_cooldown_invariant (w : World) (i : Input)
    (hsel : w.upgradeSelection = [])
    (hnd : (w.upgrades.map Prod.fst).Nodup)
    (hcap : 5 * (levelOf w.upgrades idAttackSpeed : ℚ) ≤ w.player.stats.attack.cooldown.max)
    (hp : cooldownInv w.player.stats.attack.cooldown)
    (hes : ∀ e ∈ w.enemies, cooldownInv e.stats.attack.cooldown) :
    (cooldownInv (tickEffect w i).player.stats.attack.cooldown
      ∧ 0 ≤ (tickEffect w i).player.stats.attack.cooldown.current
      ∧ (tickEffect w i).player.stats.attack.cooldown.current
          ≤ (tickEffect w i).player.stats.attack.cooldown.max)
    ∧ ∀ e ∈ (tickEffect w i).enemies,
        cooldownInv e.stats.attack.cooldown
        ∧ 0 ≤ e.stats.attack.cooldown.current
        ∧ e.stats.attack.cooldown.current ≤ e.stats.attack.cooldown.max := by
  rw [tickEffect_of_empty w i hsel]
  have hplayer : cooldownInv (tickRun w i).player.stats.attack.cooldown := by
    rw [tickRun_player_cooldown w i]
    by_cases hz : w.player.stats.attack.cooldown.current = 0
    · rw [if_pos hz]
      obtain ⟨⟨n, hn⟩, ⟨m, hm⟩, hle⟩ := hp
      have heff : (effStats w).attack.cooldown.max
          = w.player.stats.attack.cooldown.max
            - 5 * (levelOf w.upgrades idAttackSpeed : ℚ) := by
        unfold effStats
        rw [playerWithUpgrades_eq w.upgrades w.player hnd]
      have h5m : 5 * levelOf w.upgrades idAttackSpeed ≤ m := by
        have hq := hcap
        rw [hm] at hq
        exact_mod_cast hq
      have hLpos : (0 : ℚ) ≤ 5 * (levelOf w.upgrades idAttackSpeed : ℚ) := by positivity
      refine ⟨⟨m - 5 * levelOf w.upgrades idAttackSpeed, ?_⟩, ⟨m, hm⟩, ?_⟩
      · show (effStats w).attack.cooldown.max
          = ((m - 5 * levelOf w.upgrades idAttackSpeed : ℕ) : ℚ)
        rw [heff, hm]
        push_cast [h5m]
        ring
      · show (effStats w).attack.cooldown.max ≤ w.player.stats.attack.cooldown.max
        rw [heff]
        linarith
    · rw [if_neg hz]
      exact cooldownInv_dec _ hp hz
  have hpresInv : ∀ e ∈ (tickPres w i).enemies, cooldownInv e.stats.attack.cooldown := by
    intro e he
    exact processProjectiles_pred (fun e => cooldownInv e.stats.attack.cooldown)
      (fun e d h => h) (tickCtx w) (tickAtk w i).player.x (tickAtk w i).player.y
      (tickProjs1 w i) w.enemies (tickAtk w i).player.stats.health.current hes e he
  have heresInv : ∀ e ∈ (tickEres w i).enemies, cooldownInv e.stats.attack.cooldown := by
    intro e he
    exact processEnemies_cooldownInv i (tickCtx w) (tickAtk w i).player.x
      (tickAtk w i).player.y (tickPres w i).enemies 0 (tickAtk w i).nextId hpresInv e he
  have henemies : ∀ e ∈ (tickRun w i).enemies, cooldownInv e.stats.attack.cooldown := by
    intro e he
    have h : (tickRun w i).enemies = (tickSpawned w i).1 := rfl
    rw [h] at he
    unfold tickSpawned at he
    by_cases ht : w.tick % 100 = 0
    · rw [if_pos ht] at he
      rcases List.mem_append.mp he with he | he
      · exact heresInv e he
      · rw [List.mem_singleton] at he
        subst he
        exact spawnEnemy_cooldownInv i w.player.stats.level (tickAtk w i).player.x
          (tickAtk w i).player.y (tickEres w i).nextId
    · rw [if_neg ht] at he
      exact heresInv e he
  refine ⟨⟨hplayer, cooldownInv_nonneg _ hplayer, hplayer.2.2⟩, ?_⟩
  intro e he
  have hce := henemies e he
  exact ⟨hce, cooldownInv_nonneg _ hce, hce.2.2⟩

/-- Witness for C2 at a concrete running world. -/
theorem c2_witness :
    runWorld.upgradeSelection = []
    ∧ cooldownInv (tickEffect runWorld testInput).player.stats.attack.cooldown
    ∧ ∀ e ∈ (tickEffect runWorld testInput).enemies,
        cooldownInv e.stats.attack.cooldown := by
  have h := c2_cooldown_invariant runWorld testInput rfl (by simp [runWorld])
    (by norm_num [runWorld, initialPlayer, levelOf, lookupA])
    ⟨⟨0, by norm_num [runWorld, initialPlayer]⟩,
     ⟨105, by norm_num [runWorld, initialPlayer]⟩,
     by norm_num [runWorld, initialPlayer]⟩
    (by intro e he; exact absurd he (List.not_mem_nil e))
  exact ⟨rfl, h.1.1, fun e he => (h.2 e he).1⟩

end Shmup
